import Mathlib

/-!
Verification development for the document-composition core of the
OfferDocGenerator repository.

The embedding below translates the Python sources into Lean:

* namespace OfferDoc — offerdoc/core/docx_merger.py (class DocxMerger) and
  old/core/file_handler.py (FileHandler.merge_docx_files);
* namespace Odg — src/odg/document/docx.py (class DocxDocument);
* namespace Spec — definitions that follow the specification's words only
  (hierarchical numbering contiguity); they are used solely to state claims
  and are never treated as part of the code.

Modelling conventions, stated once here:

* A word-processing document body is a list of elements: paragraphs (w:p),
  tables (w:tbl) and section-property records (w:sectPr).  A paragraph owns
  its direct runs; the merger also appends foreign children into a paragraph
  element (a deepcopy of a whole source w:p, or a w:sectPr), which the model
  records in the nested / sectPrs fields.
* python-docx and lxml tree primitives are modelled by their tree semantics:
  doc.add_paragraph() and doc.add_table(...) append at the body end;
  parent.index(el) is the position of el among the body children;
  parent.insert(i, el) places el at position i, moving it if it is already
  in the tree (so append-then-insert amounts to a plain insertion at i).
  Attribute access that python-docx oxml elements do not provide is modelled
  accordingly: BaseOxmlElement has no attribute called next_sibling, hence in
  merge_content the hasattr test fails and insert_position falls back to the
  anchor paragraph itself.
* Text-level Python operations are given explicit structurally recursive
  definitions over the character data (namespace Py), so every one of them
  evaluates inside the kernel: str.strip, str.split(sep), str.isdigit
  (false on ""), int() on digit strings, str.lower, substring membership
  (in), str.join, and code-point-lexicographic string comparison.  They
  model Python's behaviour on ASCII data (the repository's headings and
  anchors).  A dict is an insertion-ordered association list whose updates
  overwrite in place.
* The source file offerdoc/core/docx_merger.py does not parse as written
  (the try block of _process_element has no except clause, and the elif
  chain for tables is dedented); the model follows the evident intent of the
  comments: the table and sectPr arms belong to the tag dispatch of
  _process_element, and errors propagate.  Cells are modelled as holding
  paragraphs only (no nested tables), so the descendant searches
  .//w:tr, .//w:tc, .//w:p coincide with direct-children traversal.
-/

namespace Py

/-- Python str.strip(): drop whitespace from both ends. -/
def pyStrip (s : String) : String :=
  ⟨((s.data.dropWhile Char.isWhitespace).reverse.dropWhile Char.isWhitespace).reverse⟩

/-- Helper for pySplit: accumulate the current chunk in reverse. -/
def splitCharAux (sep : Char) : List Char → List Char → List (List Char)
  | [], acc => [acc.reverse]
  | c :: rest, acc =>
    if c = sep then acc.reverse :: splitCharAux sep rest []
    else splitCharAux sep rest (c :: acc)

/-- Python str.split(sep) for a one-character separator: split at every
occurrence, keeping empty chunks ("".split(sep) is [""]). -/
def pySplit (sep : Char) (s : String) : List String :=
  (splitCharAux sep s.data []).map (fun l => ⟨l⟩)

/-- Python str.isdigit() on ASCII data: nonempty and all digits. -/
def pyIsDigit (s : String) : Bool := !s.data.isEmpty && s.data.all Char.isDigit

/-- Python int() on an all-digit string. -/
def pyToNat (s : String) : Nat := s.data.foldl (fun n c => n * 10 + (c.toNat - 48)) 0

/-- Python sep.join(parts). -/
def pyIntercalate (sep : String) : List String → String
  | [] => ""
  | [x] => x
  | x :: xs => x ++ sep ++ pyIntercalate sep xs

/-- Python str.lower() on ASCII data. -/
def pyLower (s : String) : String := ⟨s.data.map Char.toLower⟩

/-- Prefix test on character lists. -/
def isPrefixList : List Char → List Char → Bool
  | [], _ => true
  | _ :: _, [] => false
  | a :: as, b :: bs => a == b && isPrefixList as bs

/-- Substring occurrence on character lists. -/
def containsList (needle : List Char) : List Char → Bool
  | [] => needle.isEmpty
  | c :: rest => isPrefixList needle (c :: rest) || containsList needle rest

/-- Python needle in hay. -/
def pyContains (hay needle : String) : Bool := containsList needle.data hay.data

/-- Python string comparison: lexicographic on code points. -/
def ltChars : List Char → List Char → Bool
  | [], [] => false
  | [], _ :: _ => true
  | _ :: _, [] => false
  | a :: as, b :: bs => if a < b then true else if b < a then false else ltChars as bs

/-- Python a < b on strings. -/
def pyLt (a b : String) : Bool := ltChars a.data b.data

/-- Python s.startswith(pre). -/
def pyStartsWith (s pre : String) : Bool := isPrefixList pre.data s.data

end Py

open Py

namespace OfferDoc

/-- Inline run, the smallest unit of formatted text (python-docx Run).
Formatting properties are tri-state as in python-docx: none means
"inherit", some b an explicit setting. -/
structure Run where
  text : String
  bold : Option Bool
  italic : Option Bool
  underline : Option Bool
  size : Option Nat
  font : Option String
deriving DecidableEq, Repr

/-- Paragraph element (w:p).  Fields: direct runs, foreign paragraph
children appended by the merger (deepcopies of whole source w:p elements),
and the number of w:sectPr children appended by the merger. -/
inductive Para : Type where
  | mk : List Run → List Para → Nat → Para

/-- Direct runs of a paragraph. -/
def Para.runs : Para → List Run
  | .mk rs _ _ => rs

/-- Foreign paragraph children appended inside this paragraph. -/
def Para.nested : Para → List Para
  | .mk _ ns _ => ns

/-- Number of w:sectPr children appended inside this paragraph. -/
def Para.sectPrs : Para → Nat
  | .mk _ _ k => k

/-- Table cell: an ordered list of paragraphs. -/
abbrev Cell := List Para

/-- Table row: an ordered list of cells. -/
abbrev TRow := List Cell

/-- Body-level element of a document: paragraph, table, or section break. -/
inductive Element : Type where
  | para : Para → Element
  | table : List TRow → Element
  | sectPr : Element

/-- Paragraph text as python-docx reports it: the concatenation of the
texts of the direct runs (text inside nested foreign children is not
included, exactly as python-docx's Paragraph.text). -/
def paraText (p : Para) : String := String.join (p.runs.map Run.text)

/-- Empty paragraph, as created by add_paragraph(). -/
def emptyPara : Para := .mk [] [] 0

/-- Paragraph holding a single plain run, as produced by assigning
para.text = s in python-docx (one run, no explicit formatting). -/
def textPara (s : String) : Para := .mk [⟨s, none, none, none, none, none⟩] [] 0

/-- DocxMerger._apply_formatting: every direct run of the paragraph gets
font size 12 and font name Times New Roman; a run whose lowercased text
contains "bold" is forced bold, and one containing "italic" is forced
italic.  Only the direct runs are visited, as in python-docx. -/
def applyFormatting (p : Para) : Para :=
  .mk (p.runs.map fun r =>
        ⟨r.text,
         if pyContains (pyLower r.text) "bold" then some true else r.bold,
         if pyContains (pyLower r.text) "italic" then some true else r.italic,
         r.underline,
         some 12,
         some "Times New Roman"⟩)
      p.nested p.sectPrs

/-- New paragraph produced for an inserted source paragraph: add_paragraph()
makes an empty paragraph and the deepcopy of the source w:p is appended as
a child of it (new_para._element.append(deepcopy(element))). -/
def wrapPara (p : Para) : Para := .mk [] [p] 0

/-- DocxMerger._copy_table_content applied to one destination cell: the
fresh cell of an added row holds one empty paragraph; for each source cell
paragraph, target_cell.add_paragraph() appends a new paragraph, the source
paragraph is deepcopied inside it, and _apply_formatting runs on it. -/
def rebuildCell (row : TRow) : Cell :=
  emptyPara :: (row.map (fun c => c.map (fun p => applyFormatting (wrapPara p)))).flatten

/-- Table built by the tbl arm of _process_element: add_table(rows=0, cols=1)
then, for every source row (findall .//w:tr), add_row() produces a row with
a single cell (the table has one column), and every source cell of that row
(findall .//w:tc) is copied into new_row.cells[0]. -/
def rebuildTable (t : List TRow) : Element :=
  .table (t.map (fun row => [rebuildCell row]))

/-- Insertion at a position in the body, with the clamping behaviour of
Python list insertion (an index past the end appends). -/
def insertAt : Nat → Element → List Element → List Element
  | _, e, [] => [e]
  | 0, e, l => e :: l
  | n + 1, e, x :: l => x :: insertAt n e l

/-- Pointwise modification of the body element at a position (used for the
sectPr arm, which appends into the anchor element). -/
def modifyAt : Nat → (Element → Element) → List Element → List Element
  | _, _, [] => []
  | 0, f, x :: l => f x :: l
  | n + 1, f, x :: l => x :: modifyAt n f l

/-- Effect of insert_position.append(deepcopy(sectPr)) on the anchor
element: one more w:sectPr child of the anchor paragraph. -/
def bumpSectPr : Element → Element
  | .para p => .para (.mk p.runs p.nested (p.sectPrs + 1))
  | e => e

/-- DocxMerger._process_element, acting on the body together with the
current position of the anchor element (insert_position).  For a w:p: a new
paragraph is appended at the end, the source paragraph is deepcopied inside
it, _apply_formatting runs on it, and parent.insert(parent.index(anchor),
new) moves it directly before the anchor, whose position shifts one to the
right.  For a w:tbl: the rebuilt one-column table is appended at the body
end (add_table appends; nothing moves it to the anchor).  For a w:sectPr:
the copy is appended into the anchor element itself. -/
def processElement : List Element × Nat → Element → List Element × Nat
  | (doc, anchor), .para p =>
      (insertAt anchor (.para (applyFormatting (wrapPara p))) doc, anchor + 1)
  | (doc, anchor), .table t => (doc ++ [rebuildTable t], anchor)
  | (doc, anchor), .sectPr => (modifyAt anchor bumpSectPr doc, anchor)

/-- First index satisfying a predicate (helper for _find_section). -/
def findIdxAux (p : Element → Bool) : List Element → Option Nat
  | [] => none
  | e :: rest => if p e then some 0 else (findIdxAux p rest).map (· + 1)

/-- Matching predicate of _find_section: the element is a paragraph whose
stripped text equals the requested heading, compared case-sensitively. -/
def sectionMatch (heading : String) : Element → Bool
  | .para p => pyStrip (paraText p) == heading
  | _ => false

/-- DocxMerger._find_section: scan doc.paragraphs in body order and return
the first paragraph whose para.text.strip() equals the heading; the model
returns its body index (the code returns the element, later located with
parent.index).  Tables are never scanned; no heading-ness is checked. -/
def findSection (doc : List Element) (heading : String) : Option Nat :=
  findIdxAux (sectionMatch heading) doc

/-- DocxMerger._is_heading: the text contains a dot and every dot-separated
part consists solely of digits (Python's isdigit is false on the empty
string). -/
def isHeadingText (text : String) : Bool :=
  text.data.contains '.' && (pySplit '.' text).all pyIsDigit

/-- Key stored by _initialize_section_map: the dotted prefix of the text,
'.'.join(text.split('.')[:-1]). -/
def headingKey (text : String) : String :=
  pyIntercalate "." (pySplit '.' text).dropLast

/-- Value stored by _initialize_section_map: int(text.split('.')[-1]). -/
def headingVal (text : String) : Nat :=
  pyToNat (((pySplit '.' text).getLast?).getD "")

/-- Python dict assignment on an insertion-ordered association list:
an existing key is overwritten in place, a new key is appended. -/
def updateMap (m : List (String × Nat)) (k : String) (v : Nat) : List (String × Nat) :=
  if m.any (fun kv => kv.1 == k) then
    m.map (fun kv => if kv.1 == k then (k, v) else kv)
  else m ++ [(k, v)]

/-- Paragraphs of the body, in order (doc.paragraphs of python-docx: the
top-level w:p children; paragraphs inside tables are not included). -/
def docParas (doc : List Element) : List Para :=
  doc.filterMap (fun e => match e with | .para p => some p | _ => none)

/-- Texts of the body paragraphs, in order. -/
def docTexts (doc : List Element) : List String := (docParas doc).map paraText

/-- Tables of the body, in order. -/
def tablesOf (doc : List Element) : List (List TRow) :=
  doc.filterMap (fun e => match e with | .table t => some t | _ => none)

/-- DocxMerger._initialize_section_map: walk the base paragraphs, and for
every stripped text that passes _is_heading record
section_map['.'.join(parts[:-1])] = int(parts[-1]). -/
def initializeSectionMap (doc : List Element) : List (String × Nat) :=
  (docParas doc).foldl
    (fun m p =>
      let text := pyStrip (paraText p)
      if isHeadingText text then updateMap m (headingKey text) (headingVal text) else m)
    []

/-- Error taxonomy of the merge paths.  Both are raised as ValueError in the
source; the model distinguishes them by origin: invalidFragment for a
source file that fails to open as a document (PackageNotFoundError), and
anchorNotFound for a missing target section. -/
inductive MergeError : Type where
  | invalidFragment
  | anchorNotFound
deriving DecidableEq, Repr

/-- State of a DocxMerger after construction: the base document body and
the section map built by _initialize_section_map.  In-place mutation of the
Python object is modelled by returning the successor state; a raised
exception is the some case of the second component, and the first component
is the state the mutable document is left in at the raise. -/
structure MergerState where
  doc : List Element
  sectionMap : List (String × Nat)

/-- DocxMerger.__init__ on an already decoded base body. -/
def mkMerger (base : List Element) : MergerState := ⟨base, initializeSectionMap base⟩

/-- Lexicographic maximum of the section-map keys, Python's max(sections)
(the preceding sorted() is irrelevant to the maximum). -/
def maxKey (k : String) (ks : List String) : String :=
  ks.foldl (fun a b => if pyLt a b then b else a) k

/-- Numbering step of create_new_section: split the chosen key on dots,
parse the parts as integers and increment the last one. -/
def incrementLastPart (key : String) : String :=
  let parts := (pySplit '.' key).map pyToNat
  pyIntercalate "." ((parts.dropLast ++ [parts.getLast?.getD 0 + 1]).map toString)

/-- Number chosen by create_new_section: "1" when the section map is empty,
else the increment of the lexicographically greatest key (sections =
sorted(keys); last_section = max(sections)). -/
def newSectionNumber (m : List (String × Nat)) : String :=
  match m.map Prod.fst with
  | [] => "1"
  | k :: ks => incrementLastPart (maxKey k ks)

/-- DocxMerger.create_new_section: choose the new number ("1" when the
section map is empty, else the increment of the lexicographically greatest
key); append a paragraph with text "number heading" at the body end; when
an after-section is given, locate it (raising ValueError when absent, with
the appended paragraph already in the document) and move the new paragraph
to the position directly after it (parent.insert moves the element, so the
net effect is an insertion of the new paragraph at index + 1 of the body
without it). -/
def createNewSection (st : MergerState) (heading : String) (after : Option String) :
    MergerState × Option MergeError :=
  let newPara := Element.para (textPara (newSectionNumber st.sectionMap ++ " " ++ heading))
  let doc1 := st.doc ++ [newPara]
  match after with
  | none => (⟨doc1, st.sectionMap⟩, none)
  | some a =>
    match findSection doc1 a with
    | none => (⟨doc1, st.sectionMap⟩, some .anchorNotFound)
    | some i => (⟨insertAt (i + 1) newPara st.doc, st.sectionMap⟩, none)

/-- DocxMerger.merge_content.  A source that fails to open raises
ValueError("Invalid DOCX file") before anything is touched; a missing
target section raises ValueError("Section not found") before anything is
touched.  Otherwise every body element of the source is processed by
_process_element with insert_position equal to the anchor element (there is
no next_sibling attribute, so the fallback applies), and finally, when
new_subsection is given, create_new_section inserts the extra heading after
the target section. -/
def mergeContent (st : MergerState) (source : Option (List Element)) (targetSection : String)
    (newSubsection : Option String) : MergerState × Option MergeError :=
  match source with
  | none => (st, some .invalidFragment)
  | some frag =>
    match findSection st.doc targetSection with
    | none => (st, some .anchorNotFound)
    | some anchor =>
      let r := frag.foldl processElement (st.doc, anchor)
      let st1 : MergerState := ⟨r.1, st.sectionMap⟩
      match newSubsection with
      | none => (st1, none)
      | some h => createNewSection st1 h (some targetSection)

/-- FileHandler.merge_docx_files (old/core/file_handler.py): apply
merge_content once per source path in list order; an exception from a
source is logged and swallowed (continue), leaving the merger state as the
failed call left it; afterwards the base document is saved.  The function
returns only the output path — no record of per-source failures. -/
def mergeDocxFiles (st : MergerState) (sources : List (Option (List Element)))
    (targetSection : String) (newSubsection : Option String) : MergerState :=
  sources.foldl (fun s src => (mergeContent s src targetSection newSubsection).1) st

/-- Wrapped paragraphs a fragment contributes, in fragment order. -/
def fragWrapped : List Element → List Element
  | [] => []
  | .para p :: rest => Element.para (applyFormatting (wrapPara p)) :: fragWrapped rest
  | .table _ :: rest => fragWrapped rest
  | .sectPr :: rest => fragWrapped rest

/-- Rebuilt tables a fragment contributes, in fragment order. -/
def fragTables : List Element → List Element
  | [] => []
  | .table t :: rest => rebuildTable t :: fragTables rest
  | .para _ :: rest => fragTables rest
  | .sectPr :: rest => fragTables rest

/-- Number of sectPr elements in a fragment. -/
def countSect : List Element → Nat
  | [] => 0
  | .sectPr :: rest => countSect rest + 1
  | .para _ :: rest => countSect rest
  | .table _ :: rest => countSect rest

/-- Paragraph with its sectPr-child counter raised by n. -/
def addSect (p : Para) (n : Nat) : Para := .mk p.runs p.nested (p.sectPrs + n)

end OfferDoc

namespace Odg

/-- Paragraph as DocxDocument sees it: display text and style name. -/
structure Para where
  text : String
  style : String
deriving DecidableEq, Repr

/-- Document for the validator: its ordered paragraph list (the only view
DocxDocument.validate and its helpers consult). -/
abbrev Doc := List Para

/-- DocxDocument._has_valid_structure: some paragraph has a Heading style. -/
def hasValidStructure (d : Doc) : Bool :=
  d.any (fun p => Py.pyStartsWith p.style "Heading")

/-- DocxDocument._has_consistent_numbering: collect the paragraphs whose
style name starts with List Number and return bool of that list, i.e.
whether at least one exists.  Heading numbers are never read. -/
def hasConsistentNumbering (d : Doc) : Bool :=
  !(d.filter (fun p => Py.pyStartsWith p.style "List Number")).isEmpty

/-- Required headings hard-coded in _has_required_sections. -/
def requiredSections : List String :=
  ["Introduction", "Overview", "Technical Specifications"]

/-- DocxDocument._has_required_sections: the required texts are a subset of
the stripped texts of Heading-styled paragraphs. -/
def hasRequiredSections (d : Doc) : Bool :=
  requiredSections.all (fun r =>
    d.any (fun p => Py.pyStartsWith p.style "Heading" && Py.pyStrip p.text == r))

/-- DocxDocument.validate on an already decoded document (none models a
file that fails to open, which the except arm turns into False). -/
def validate (d : Option Doc) : Bool :=
  match d with
  | none => false
  | some doc => hasValidStructure doc && hasConsistentNumbering doc && hasRequiredSections doc

/-- DocxDocument.merge: an empty document list raises ValueError before any
document is opened or written; otherwise the bodies of the later documents
are appended after the first and the result is saved (style normalization
touches style-table fonts only, not the paragraph list). -/
def merge (documents : List Doc) : Except String Doc :=
  match documents with
  | [] => .error "No documents provided for merging"
  | d :: rest => .ok (rest.foldl (fun acc doc => acc ++ doc) d)

end Odg

namespace Spec

/-- Allocation-and-check step for the specification's numbering rule,
written from the spec's words only (sections 4.3 and 4.5): maintain the
counter stack; a heading at level L must carry exactly the stack obtained
by incrementing the counter at L (or opening level L with 1 when L is one
deeper); sibling numbers therefore increase by exactly 1 and children
restart at 1; a level skip or a mismatch makes the sequence
non-contiguous. -/
def contiguousStep (acc : Option (List Nat)) (num : List Nat) : Option (List Nat) :=
  match acc with
  | none => none
  | some counters =>
    if h : num.length = 0 then none
    else if hle : num.length ≤ counters.length then
      let derived := counters.take (num.length - 1) ++
        [counters.get ⟨num.length - 1, by omega⟩ + 1]
      if num = derived then some derived else none
    else if num.length = counters.length + 1 then
      let derived := counters ++ [1]
      if num = derived then some derived else none
    else none

/-- Specification predicate numbering_contiguous on a sequence of stored
heading numbers, written from the spec's words only; used to state claims,
never as part of the code model. -/
def numberingContiguous (numbers : List (List Nat)) : Bool :=
  (numbers.foldl contiguousStep (some [])).isSome

/-- Stored section number of a heading as the spec reads it off the display
text: the leading whitespace-delimited token, when it is a dotted run of
digits (for example "1.2 Details" carries [1, 2] and "2 Extra" carries
[2]).  Spec-side definition, used only to state claims. -/
def headingNumberOfText (text : String) : Option (List Nat) :=
  match (Py.pySplit ' ' (Py.pyStrip text)).head? with
  | none => none
  | some tok =>
    let parts := Py.pySplit '.' tok
    if parts.all Py.pyIsDigit then some (parts.map Py.pyToNat) else none

end Spec

namespace OfferDoc

/-- Stored heading numbers of a merger document, read off the paragraph
texts in order (spec-side view used to state claims about numbering). -/
def docHeadingNumbers (doc : List Element) : List (List Nat) :=
  (docParas doc).filterMap (fun p => Spec.headingNumberOfText (paraText p))

end OfferDoc

namespace Odg

/-- Stored heading numbers of a validator document: numbers read off the
texts of Heading-styled paragraphs (spec-side view used to state claims). -/
def headingNumbers (d : Doc) : List (List Nat) :=
  (d.filter (fun p => Py.pyStartsWith p.style "Heading")).filterMap
    (fun p => Spec.headingNumberOfText p.text)

end Odg

namespace OfferDoc

/-- Base document with stored heading numbers 1 and 1.3 (a pre-existing
gap at the second level). -/
def exC1Base : List Element := [.para (textPara "1"), .para (textPara "1.3")]

/-- One-paragraph fragment. -/
def exC1Frag : List Element := [.para (textPara "extra content")]

/-- Base document with headings numbered 1, 1.1, 1.2 as in the claim's
renumbering scenario. -/
def exC2Base : List Element :=
  [.para (textPara "1"), .para (textPara "1.1"), .para (textPara "1.2")]

/-- One-heading fragment of the renumbering scenario. -/
def exC2Frag : Para := textPara "2.3 Additional Details"

/-- Document whose first paragraph is plain body text reading Details,
followed by a digit-dotted heading. -/
def exC3Doc : List Element := [.para (textPara "Details"), .para (textPara "1.2")]

/-- Paragraph with one run whose text mentions the word bold but which
carries no explicit bold setting. -/
def exC5Para : Para := .mk [⟨"a bold statement", none, none, none, none, none⟩] [] 0

/-- One-row, two-column source table. -/
def exC6Table : List TRow := [[[textPara "R1C1"], [textPara "R1C2"]]]

/-- Two-row, one-column source table (the claim's particular example). -/
def exC6Table2 : List TRow := [[[textPara "R1"]], [[textPara "R2"]]]

/-- One-paragraph base document with anchor text A. -/
def exC6Base : List Element := [.para (textPara "A")]

/-- Two-paragraph base document with anchor text A followed by B. -/
def exC7Base : List Element := [.para (textPara "A"), .para (textPara "B")]

/-- Two-paragraph fragment, in order first then second. -/
def exC7Frag : List Element := [.para (textPara "first"), .para (textPara "second")]

/-- Merger state over a one-paragraph base document. -/
def exC4St : MergerState := mkMerger [.para (textPara "A")]

/-- Base document whose headings carry title text after the number, so no
paragraph passes _is_heading. -/
def exC10Doc : List Element :=
  [.para (textPara "1.2 Details"), .para (textPara "Overview")]

/-- Payload paragraph used by witnesses. -/
def exWPara : Para := textPara "payload"

/-- Merger state over a one-paragraph base document, used by witnesses. -/
def exWSt : MergerState := mkMerger [Element.para (textPara "A")]

/-- Document starting with a table, then a paragraph reading T (witness
input for the resolver: the returned index counts body elements). -/
def exC3W : List Element := [.table [], .para (textPara "T")]

end OfferDoc

/-- Validator document with a level gap in the stored heading numbers
(1 then 1.3) and one List-Number-styled paragraph. -/
def exC8Doc : Odg.Doc :=
  [⟨"1 Intro", "Heading 1"⟩, ⟨"1.3 Gap", "Heading 2"⟩, ⟨"item", "List Number"⟩]

/-- Validator document with perfectly contiguous heading numbers and no
List-Number-styled paragraph. -/
def exC8Doc2 : Odg.Doc := [⟨"1 Intro", "Heading 1"⟩, ⟨"1.1 Sub", "Heading 2"⟩]

namespace OfferDoc

theorem insertAt_zero (e : Element) (l : List Element) : insertAt 0 e l = e :: l := by
  cases l <;> rfl

theorem insertAt_cons_succ (n : Nat) (e x : Element) (l : List Element) :
    insertAt (n + 1) e (x :: l) = x :: insertAt n e l := rfl

theorem insertAt_length_append (l m : List Element) (e : Element) :
    insertAt l.length e (l ++ m) = l ++ e :: m := by
  induction l with
  | nil => simpa using insertAt_zero e m
  | cons x l ih =>
    show insertAt (l.length + 1) e (x :: (l ++ m)) = x :: (l ++ e :: m)
    rw [insertAt_cons_succ, ih]

theorem insertAt_self_length (l : List Element) (e : Element) :
    insertAt l.length e l = l ++ [e] := by
  induction l with
  | nil => rfl
  | cons x l ih =>
    show insertAt (l.length + 1) e (x :: l) = x :: (l ++ [e])
    rw [insertAt_cons_succ, ih]

theorem mem_insertAt (n : Nat) (e x : Element) (l : List Element) (hx : x ∈ l) :
    x ∈ insertAt n e l := by
  induction l generalizing n with
  | nil => cases hx
  | cons y l ih =>
    cases n with
    | zero =>
      rw [insertAt_zero]
      exact List.mem_cons_of_mem _ hx
    | succ n =>
      rw [insertAt_cons_succ]
      rcases List.mem_cons.mp hx with h | h
      · exact h ▸ List.mem_cons_self _ _
      · exact List.mem_cons_of_mem _ (ih n h)

theorem modifyAt_length_append (l m : List Element) (e : Element) (f : Element → Element) :
    modifyAt l.length f (l ++ e :: m) = l ++ f e :: m := by
  induction l with
  | nil => rfl
  | cons x l ih =>
    show x :: modifyAt l.length f (l ++ e :: m) = x :: (l ++ f e :: m)
    rw [ih]

theorem findIdxAux_cons (p : Element → Bool) (e : Element) (l : List Element) :
    findIdxAux p (e :: l) = if p e then some 0 else (findIdxAux p l).map (· + 1) := rfl

theorem findIdxAux_eq_none_iff (p : Element → Bool) (l : List Element) :
    findIdxAux p l = none ↔ ∀ x ∈ l, p x = false := by
  induction l with
  | nil => simp [findIdxAux]
  | cons e l ih =>
    by_cases he : p e = true
    · simp [findIdxAux, he]
    · simp only [Bool.not_eq_true] at he
      simp [findIdxAux, he, ih]

theorem findIdxAux_some_spec (p : Element → Bool) (l : List Element) (i : Nat)
    (h : findIdxAux p l = some i) :
    ∃ X y Y, l = X ++ y :: Y ∧ X.length = i ∧ p y = true ∧ ∀ x ∈ X, p x = false := by
  induction l generalizing i with
  | nil => simp [findIdxAux] at h
  | cons e l ih =>
    by_cases he : p e = true
    · rw [findIdxAux_cons, if_pos he] at h
      refine ⟨[], e, l, rfl, ?_, he, by simp⟩
      simpa using (Option.some.injEq _ _).mp h
    · rw [findIdxAux_cons, if_neg he] at h
      simp only [Bool.not_eq_true] at he
      rcases Option.map_eq_some'.mp h with ⟨j, hj, hij⟩
      rcases ih j hj with ⟨X, y, Y, h1, h2, h3, h4⟩
      refine ⟨e :: X, y, Y, by rw [h1, List.cons_append], ?_, h3, ?_⟩
      · simp [h2, hij]
      · intro x hx
        rcases List.mem_cons.mp hx with hh | hh
        · rw [hh]; exact he
        · exact h4 x hh

theorem findIdxAux_isSome_of_mem (p : Element → Bool) (l : List Element) (x : Element)
    (hx : x ∈ l) (hp : p x = true) : (findIdxAux p l).isSome := by
  cases hf : findIdxAux p l with
  | some i => rfl
  | none => exact absurd hp (by simp [(findIdxAux_eq_none_iff p l).mp hf x hx])

theorem findIdxAux_append_all_false (p : Element → Bool) (l m : List Element)
    (h : ∀ x ∈ l, p x = false) :
    findIdxAux p (l ++ m) = (findIdxAux p m).map (· + l.length) := by
  induction l with
  | nil => cases hfm : findIdxAux p m <;> simp [hfm]
  | cons e l ih =>
    have he : p e = false := h e (List.mem_cons_self _ _)
    rw [List.cons_append, findIdxAux_cons, if_neg (by simp [he]),
      ih (fun x hx => h x (List.mem_cons_of_mem _ hx))]
    cases hfm : findIdxAux p m <;> simp [hfm, Nat.add_assoc]

end OfferDoc

namespace OfferDoc

@[simp] theorem addSect_zero (p : Para) : addSect p 0 = p := by
  cases p
  rfl

theorem addSect_succ_comm (p : Para) (n : Nat) : addSect (addSect p 1) n = addSect p (n + 1) := by
  cases p with
  | mk r ns s =>
    show Para.mk r ns (s + 1 + n) = Para.mk r ns (s + (n + 1))
    congr 1
    omega

@[simp] theorem paraText_addSect (p : Para) (n : Nat) : paraText (addSect p n) = paraText p := by
  cases p
  rfl

@[simp] theorem applyFormatting_wrapPara (p : Para) :
    applyFormatting (wrapPara p) = wrapPara p := rfl

@[simp] theorem paraText_wrapPara (p : Para) : paraText (wrapPara p) = "" := rfl

@[simp] theorem runs_wrapPara (p : Para) : (wrapPara p).runs = [] := rfl

@[simp] theorem nested_wrapPara (p : Para) : (wrapPara p).nested = [p] := rfl

theorem sectionMatch_addSect (t : String) (p : Para) (n : Nat) :
    sectionMatch t (Element.para (addSect p n)) = sectionMatch t (Element.para p) := by
  simp [sectionMatch]

theorem bumpSectPr_para (p : Para) : bumpSectPr (Element.para p) = Element.para (addSect p 1) := by
  cases p
  rfl

@[simp] theorem fragWrapped_nil : fragWrapped [] = [] := rfl

@[simp] theorem fragWrapped_para (p : Para) (rest : List Element) :
    fragWrapped (Element.para p :: rest) =
      Element.para (applyFormatting (wrapPara p)) :: fragWrapped rest := rfl

@[simp] theorem fragWrapped_table (t : List TRow) (rest : List Element) :
    fragWrapped (Element.table t :: rest) = fragWrapped rest := rfl

@[simp] theorem fragWrapped_sectPr (rest : List Element) :
    fragWrapped (Element.sectPr :: rest) = fragWrapped rest := rfl

@[simp] theorem fragTables_nil : fragTables [] = [] := rfl

@[simp] theorem fragTables_para (p : Para) (rest : List Element) :
    fragTables (Element.para p :: rest) = fragTables rest := rfl

@[simp] theorem fragTables_table (t : List TRow) (rest : List Element) :
    fragTables (Element.table t :: rest) = rebuildTable t :: fragTables rest := rfl

@[simp] theorem fragTables_sectPr (rest : List Element) :
    fragTables (Element.sectPr :: rest) = fragTables rest := rfl

@[simp] theorem countSect_nil : countSect [] = 0 := rfl

@[simp] theorem countSect_para (p : Para) (rest : List Element) :
    countSect (Element.para p :: rest) = countSect rest := rfl

@[simp] theorem countSect_table (t : List TRow) (rest : List Element) :
    countSect (Element.table t :: rest) = countSect rest := rfl

@[simp] theorem countSect_sectPr (rest : List Element) :
    countSect (Element.sectPr :: rest) = countSect rest + 1 := rfl

theorem foldl_processElement_closed (frag : List Element) :
    ∀ (X Y : List Element) (p0 : Para),
      frag.foldl processElement (X ++ Element.para p0 :: Y, X.length) =
        (X ++ fragWrapped frag ++
            Element.para (addSect p0 (countSect frag)) :: (Y ++ fragTables frag),
          X.length + (fragWrapped frag).length) := by
  induction frag with
  | nil => intro X Y p0; simp
  | cons e rest ih =>
    intro X Y p0
    cases e with
    | para p =>
      have hstep : processElement (X ++ Element.para p0 :: Y, X.length) (Element.para p) =
          ((X ++ [Element.para (wrapPara p)]) ++ Element.para p0 :: Y,
            (X ++ [Element.para (wrapPara p)]).length) := by
        show (insertAt X.length (Element.para (applyFormatting (wrapPara p)))
            (X ++ Element.para p0 :: Y), X.length + 1) = _
        rw [applyFormatting_wrapPara, insertAt_length_append]
        simp [List.append_assoc]
      rw [List.foldl_cons, hstep, ih]
      apply Prod.ext
      · simp [List.append_assoc]
      · simp
        omega
    | table t =>
      have hstep : processElement (X ++ Element.para p0 :: Y, X.length) (Element.table t) =
          (X ++ Element.para p0 :: (Y ++ [rebuildTable t]), X.length) := by
        show ((X ++ Element.para p0 :: Y) ++ [rebuildTable t], X.length) = _
        simp [List.append_assoc]
      rw [List.foldl_cons, hstep, ih]
      apply Prod.ext
      · simp [List.append_assoc]
      · simp
    | sectPr =>
      have hstep : processElement (X ++ Element.para p0 :: Y, X.length) Element.sectPr =
          (X ++ Element.para (addSect p0 1) :: Y, X.length) := by
        show (modifyAt X.length bumpSectPr (X ++ Element.para p0 :: Y), X.length) = _
        rw [modifyAt_length_append, bumpSectPr_para]
      rw [List.foldl_cons, hstep, ih]
      apply Prod.ext
      · simp [addSect_succ_comm]
      · simp

end OfferDoc

namespace OfferDoc

theorem mergeContent_none_source (st : MergerState) (t : String) (ns : Option String) :
    mergeContent st none t ns = (st, some MergeError.invalidFragment) := rfl

theorem mergeContent_no_anchor (st : MergerState) (frag : List Element) (t : String)
    (ns : Option String) (h : findSection st.doc t = none) :
    mergeContent st (some frag) t ns = (st, some MergeError.anchorNotFound) := by
  unfold mergeContent
  rw [h]

theorem sectionMatch_of_findSection (doc : List Element) (t : String) (X Y : List Element)
    (p0 : Para) (hdoc : doc = X ++ Element.para p0 :: Y)
    (hfind : findSection doc t = some X.length) :
    sectionMatch t (Element.para p0) = true := by
  obtain ⟨X2, y, Y2, h1, h2, h3, h4⟩ := findIdxAux_some_spec _ _ _ hfind
  rw [hdoc] at h1
  obtain ⟨hX, hY⟩ := List.append_inj h1.symm h2
  rw [(List.cons.injEq _ _ _ _).mp hY |>.1] at h3
  exact h3

theorem mergeContent_ok_none_sub (st : MergerState) (frag : List Element) (t : String)
    (X Y : List Element) (p0 : Para)
    (hdoc : st.doc = X ++ Element.para p0 :: Y)
    (hfind : findSection st.doc t = some X.length) :
    mergeContent st (some frag) t none =
      (⟨X ++ fragWrapped frag ++
          Element.para (addSect p0 (countSect frag)) :: (Y ++ fragTables frag),
        st.sectionMap⟩, none) := by
  unfold mergeContent
  rw [hfind, hdoc]
  dsimp only
  rw [foldl_processElement_closed]

theorem mergeContent_ok_some_sub (st : MergerState) (frag : List Element) (t h : String)
    (X Y : List Element) (p0 : Para)
    (hdoc : st.doc = X ++ Element.para p0 :: Y)
    (hfind : findSection st.doc t = some X.length) :
    ∃ i, findSection
          ((X ++ fragWrapped frag ++
              Element.para (addSect p0 (countSect frag)) :: (Y ++ fragTables frag)) ++
            [Element.para (textPara (newSectionNumber st.sectionMap ++ " " ++ h))]) t = some i ∧
      mergeContent st (some frag) t (some h) =
        (⟨insertAt (i + 1)
            (Element.para (textPara (newSectionNumber st.sectionMap ++ " " ++ h)))
            (X ++ fragWrapped frag ++
              Element.para (addSect p0 (countSect frag)) :: (Y ++ fragTables frag)),
          st.sectionMap⟩, none) := by
  have hp0 : sectionMatch t (Element.para p0) = true :=
    sectionMatch_of_findSection st.doc t X Y p0 hdoc hfind
  have hmem : Element.para (addSect p0 (countSect frag)) ∈
      (X ++ fragWrapped frag ++
        Element.para (addSect p0 (countSect frag)) :: (Y ++ fragTables frag)) ++
        [Element.para (textPara (newSectionNumber st.sectionMap ++ " " ++ h))] := by
    simp
  have hsome : (findSection
      ((X ++ fragWrapped frag ++
          Element.para (addSect p0 (countSect frag)) :: (Y ++ fragTables frag)) ++
        [Element.para (textPara (newSectionNumber st.sectionMap ++ " " ++ h))]) t).isSome := by
    refine findIdxAux_isSome_of_mem _ _ _ hmem ?_
    rw [sectionMatch_addSect]
    exact hp0
  obtain ⟨i, hi⟩ := Option.isSome_iff_exists.mp hsome
  refine ⟨i, hi, ?_⟩
  unfold mergeContent
  rw [hfind, hdoc]
  dsimp only
  rw [foldl_processElement_closed]
  unfold createNewSection
  dsimp only
  rw [hi]

theorem mergeContent_ok_mem (st : MergerState) (frag : List Element) (t : String)
    (ns : Option String) (a : Nat) (hfind : findSection st.doc t = some a)
    (x : Element) (hx : x ∈ fragWrapped frag ∨ x ∈ fragTables frag) :
    x ∈ (mergeContent st (some frag) t ns).1.doc := by
  obtain ⟨X, y, Y, h1, h2, h3, h4⟩ := findIdxAux_some_spec _ _ _ hfind
  obtain ⟨p0, rfl⟩ : ∃ p0, y = Element.para p0 := by
    cases y with
    | para p => exact ⟨p, rfl⟩
    | table tb => simp [sectionMatch] at h3
    | sectPr => simp [sectionMatch] at h3
  subst h2
  have hmemdoc : x ∈ X ++ fragWrapped frag ++
      Element.para (addSect p0 (countSect frag)) :: (Y ++ fragTables frag) := by
    rcases hx with hx | hx
    · exact List.mem_append_left _ (List.mem_append_right _ hx)
    · exact List.mem_append_right _
        (List.mem_cons_of_mem _ (List.mem_append_right _ hx))
  cases ns with
  | none =>
    rw [mergeContent_ok_none_sub st frag t X Y p0 h1 hfind]
    exact hmemdoc
  | some h =>
    obtain ⟨i, hi, heq⟩ := mergeContent_ok_some_sub st frag t h X Y p0 h1 hfind
    rw [heq]
    exact mem_insertAt _ _ _ _ hmemdoc

end OfferDoc

namespace OfferDoc

theorem mergeContent_ok_err_none (st : MergerState) (frag : List Element) (t : String)
    (ns : Option String) (a : Nat) (hfind : findSection st.doc t = some a) :
    (mergeContent st (some frag) t ns).2 = none := by
  obtain ⟨X, y, Y, h1, h2, h3, h4⟩ := findIdxAux_some_spec _ _ _ hfind
  obtain ⟨p0, rfl⟩ : ∃ p0, y = Element.para p0 := by
    cases y with
    | para p => exact ⟨p, rfl⟩
    | table tb => simp [sectionMatch] at h3
    | sectPr => simp [sectionMatch] at h3
  subst h2
  cases ns with
  | none => rw [mergeContent_ok_none_sub st frag t X Y p0 h1 hfind]
  | some h =>
    obtain ⟨i, hi, heq⟩ := mergeContent_ok_some_sub st frag t h X Y p0 h1 hfind
    rw [heq]

theorem mergeContent_err_unchanged (st : MergerState) (src : Option (List Element))
    (t : String) (ns : Option String) (h : ((mergeContent st src t ns).2).isSome) :
    (mergeContent st src t ns).1 = st := by
  cases src with
  | none => rfl
  | some frag =>
    cases hf : findSection st.doc t with
    | none => rw [mergeContent_no_anchor st frag t ns hf]
    | some a =>
      rw [mergeContent_ok_err_none st frag t ns a hf] at h
      simp at h

theorem mem_fragWrapped_of_mem (frag : List Element) (p : Para)
    (hp : Element.para p ∈ frag) :
    Element.para (wrapPara p) ∈ fragWrapped frag := by
  induction frag with
  | nil => cases hp
  | cons e rest ih =>
    rcases List.mem_cons.mp hp with h | h
    · rw [← h]
      simp
    · cases e with
      | para q => simp [ih h]
      | table tb => simpa using ih h
      | sectPr => simpa using ih h

theorem mem_fragTables_of_mem (frag : List Element) (tb : List TRow)
    (htb : Element.table tb ∈ frag) :
    rebuildTable tb ∈ fragTables frag := by
  induction frag with
  | nil => cases htb
  | cons e rest ih =>
    rcases List.mem_cons.mp htb with h | h
    · rw [← h]
      simp
    · cases e with
      | para q => simpa using ih h
      | table tb2 => simp [ih h]
      | sectPr => simpa using ih h

theorem mem_docParas (doc : List Element) (p : Para) :
    p ∈ docParas doc ↔ Element.para p ∈ doc := by
  unfold docParas
  rw [List.mem_filterMap]
  constructor
  · rintro ⟨e, he, hmatch⟩
    cases e with
    | para q =>
      simp only [Option.some.injEq] at hmatch
      rw [hmatch] at he
      exact he
    | table tb => simp at hmatch
    | sectPr => simp at hmatch
  · intro h
    exact ⟨Element.para p, h, rfl⟩

theorem initializeSectionMap_skip (doc : List Element)
    (h : ∀ p ∈ docParas doc, isHeadingText (pyStrip (paraText p)) = false) :
    initializeSectionMap doc = [] := by
  unfold initializeSectionMap
  suffices hgen : ∀ (l : List Para) (m : List (String × Nat)),
      (∀ p ∈ l, isHeadingText (pyStrip (paraText p)) = false) →
      l.foldl (fun m p =>
        let text := pyStrip (paraText p)
        if isHeadingText text then updateMap m (headingKey text) (headingVal text) else m) m = m by
    exact hgen (docParas doc) [] h
  intro l
  induction l with
  | nil => intro m _; rfl
  | cons p rest ih =>
    intro m hall
    rw [List.foldl_cons]
    have hp : isHeadingText (pyStrip (paraText p)) = false := hall p (List.mem_cons_self _ _)
    simp only [hp, if_false]
    exact ih m (fun q hq => hall q (List.mem_cons_of_mem _ hq))

end OfferDoc

namespace OfferDoc

theorem mergeContent_ok_find (st : MergerState) (frag : List Element) (t : String)
    (ns : Option String) (h : (mergeContent st (some frag) t ns).2 = none) :
    ∃ a, findSection st.doc t = some a := by
  cases hf : findSection st.doc t with
  | some a => exact ⟨a, rfl⟩
  | none =>
    rw [mergeContent_no_anchor st frag t ns hf] at h
    simp at h

/-- C9: merge_many with an empty fragment list leaves the document exactly
as it was: merge_docx_files folds merge_content over the given sources and
with no sources the merger state (hence the saved document) is returned
untouched; the other batch entry point, DocxDocument.merge, rejects an
empty document list with ValueError before touching or writing anything. -/
theorem claimC9 (base : List Element) (t : String) (ns : Option String) :
    mergeDocxFiles (mkMerger base) [] t ns = mkMerger base
    ∧ Odg.merge [] = Except.error "No documents provided for merging" :=
  ⟨rfl, rfl⟩

/-- C4 (amended): merge_docx_files applies merge_content once per source in
list order and a failing source is skipped with the state it left behind
(for an unreadable source, the pre-call state), so a batch containing a
failing fragment computes exactly what the same batch without that
fragment computes; no report of the failure is produced. -/
theorem claimC4 (st : MergerState) (xs ys : List (Option (List Element)))
    (t : String) (ns : Option String) :
    mergeDocxFiles st (xs ++ none :: ys) t ns = mergeDocxFiles st (xs ++ ys) t ns := by
  induction xs generalizing st with
  | nil => rfl
  | cons x xs ih =>
    simp only [List.cons_append]
    unfold mergeDocxFiles
    rw [List.foldl_cons, List.foldl_cons]
    exact ih ((mergeContent st x t ns).1)

/-- C4 (counterexample): a batch whose only fragment fails (an unreadable
source document) returns the bare merger state, equal to the result of the
empty batch and to the input state itself — the caller receives no record
of the failure ({fragment_index, error} appears nowhere in the return
value, which is only the saved path in the source), refuting that every
non-success path is surfaced in a typed result the caller can observe. -/
theorem claimC4_cex :
    mergeDocxFiles exC4St [none] "A" none = mergeDocxFiles exC4St [] "A" none
    ∧ mergeDocxFiles exC4St [none] "A" none = exC4St :=
  ⟨rfl, rfl⟩

/-- C10: the section map records a paragraph only when its stripped text
contains a dot and every dot-separated part is all digits; consequently on
a base document whose headings carry title text after the number (so no
paragraph passes _is_heading), the map stays empty and create_new_section
numbers the new section "1". -/
theorem claimC10 (doc : List Element) (hd : String)
    (h : (docParas doc).all (fun p => !isHeadingText (pyStrip (paraText p))) = true) :
    initializeSectionMap doc = []
    ∧ createNewSection (mkMerger doc) hd none =
        (⟨doc ++ [Element.para (textPara ("1 " ++ hd))], []⟩, none) := by
  have hmap : initializeSectionMap doc = [] := by
    apply initializeSectionMap_skip
    intro p hp
    simpa using List.all_eq_true.mp h p hp
  refine ⟨hmap, ?_⟩
  show createNewSection ⟨doc, initializeSectionMap doc⟩ hd none = _
  rw [hmap]
  rfl

/-- C10 (witness): the base of the merger test fixtures, paragraphs
"1.2 Details" and "Overview", passes the hypothesis and yields an empty
map and a new section numbered "1". -/
theorem claimC10_witness :
    ((docParas exC10Doc).all (fun p => !isHeadingText (pyStrip (paraText p))) = true)
    ∧ (initializeSectionMap exC10Doc = []
       ∧ createNewSection (mkMerger exC10Doc) "Additional Information" none =
          (⟨exC10Doc ++ [Element.para (textPara ("1 " ++ "Additional Information"))], []⟩, none)) :=
  ⟨by decide, claimC10 exC10Doc "Additional Information" (by decide)⟩

end OfferDoc

/-- C8 (amended): the validator's numbering check does not examine heading
numbers at all: it returns true exactly when some paragraph's style name
starts with List Number, and its verdict is invariant under arbitrary
rewriting of every paragraph's text (in particular of the stored heading
numbers). -/
theorem claimC8 (d : Odg.Doc) :
    (Odg.hasConsistentNumbering d = true ↔
      ∃ p ∈ d, Py.pyStartsWith p.style "List Number" = true)
    ∧ ∀ f : Odg.Para → String,
        Odg.hasConsistentNumbering (d.map (fun p => ⟨f p, p.style⟩)) =
          Odg.hasConsistentNumbering d := by
  constructor
  · induction d with
    | nil => simp [Odg.hasConsistentNumbering]
    | cons p rest ih =>
      by_cases hp : Py.pyStartsWith p.style "List Number" = true
      · simp [Odg.hasConsistentNumbering, hp]
      · simp only [Bool.not_eq_true] at hp
        simp_all [Odg.hasConsistentNumbering, hp]
  · intro f
    induction d with
    | nil => rfl
    | cons p rest ih =>
      by_cases hp : Py.pyStartsWith p.style "List Number" = true
      · simp [Odg.hasConsistentNumbering, hp]
      · simp only [Bool.not_eq_true] at hp
        simp_all [Odg.hasConsistentNumbering, hp]

/-- C8 (counterexample): a document whose stored heading numbers are 1 then
1.3 (child numbering does not restart at 1, so the spec's re-derivation is
non-contiguous) is reported consistent because it contains a List-Number
paragraph; conversely a document with perfectly contiguous numbers 1, 1.1
but no List-Number paragraph is reported inconsistent.  The check is not
the claimed if-and-only-if. -/
theorem claimC8_cex :
    Odg.hasConsistentNumbering exC8Doc = true
    ∧ Spec.numberingContiguous (Odg.headingNumbers exC8Doc) = false
    ∧ Odg.hasConsistentNumbering exC8Doc2 = false
    ∧ Spec.numberingContiguous (Odg.headingNumbers exC8Doc2) = true := by
  refine ⟨by decide, by decide, by decide, by decide⟩

namespace OfferDoc

/-- C3 (amended): _find_section returns the body index of the first
top-level paragraph — heading or not — whose stripped text equals the
requested heading, case-sensitively; earlier body paragraphs never match;
and it reports not-found (the ValueError) exactly when no top-level
paragraph's stripped text equals the heading.  Table content is never
scanned and no heading-ness of the matched paragraph is checked. -/
theorem claimC3 (doc : List Element) (t : String) :
    (∀ i, findSection doc t = some i →
       ∃ X p Y, doc = X ++ Element.para p :: Y ∧ X.length = i
         ∧ pyStrip (paraText p) = t
         ∧ ∀ q : Para, Element.para q ∈ X → pyStrip (paraText q) ≠ t)
    ∧ (findSection doc t = none ↔
        ∀ p : Para, Element.para p ∈ doc → pyStrip (paraText p) ≠ t) := by
  constructor
  · intro i hi
    obtain ⟨X, y, Y, h1, h2, h3, h4⟩ := findIdxAux_some_spec _ _ _ hi
    obtain ⟨p, rfl⟩ : ∃ p, y = Element.para p := by
      cases y with
      | para p => exact ⟨p, rfl⟩
      | table tb => simp [sectionMatch] at h3
      | sectPr => simp [sectionMatch] at h3
    refine ⟨X, p, Y, h1, h2, ?_, ?_⟩
    · simpa [sectionMatch] using h3
    · intro q hq hcontra
      have hfq := h4 (Element.para q) hq
      simp [sectionMatch, hcontra] at hfq
  · rw [findSection, findIdxAux_eq_none_iff]
    constructor
    · intro h p hp hcontra
      have hfp := h (Element.para p) hp
      simp [sectionMatch, hcontra] at hfp
    · intro h x hx
      cases x with
      | para p =>
        simp only [sectionMatch, beq_eq_false_iff_ne, ne_eq]
        exact h p hx
      | table tb => rfl
      | sectPr => rfl

/-- C3 (witness): in a document whose body is a table followed by a
paragraph reading T, resolving T yields index 1 with the decomposition and
first-match guarantees, and resolving an absent heading is equivalent to no
paragraph matching. -/
theorem claimC3_witness :
    (∃ X p Y, exC3W = X ++ Element.para p :: Y ∧ X.length = 1
       ∧ pyStrip (paraText p) = "T"
       ∧ ∀ q : Para, Element.para q ∈ X → pyStrip (paraText q) ≠ "T")
    ∧ (findSection exC3W "missing" = none ↔
        ∀ p : Para, Element.para p ∈ exC3W → pyStrip (paraText p) ≠ "missing") :=
  ⟨(claimC3 exC3W "T").1 1 (by decide), (claimC3 exC3W "missing").2⟩

/-- C3 (counterexample): the resolver matches a plain body paragraph
reading Details at index 0 even though that paragraph is not a heading (it
fails the module's only heading notion, _is_heading), refuting that the
resolver returns the first block that is a heading with the given text. -/
theorem claimC3_cex :
    findSection exC3Doc "Details" = some 0
    ∧ isHeadingText (pyStrip (paraText (textPara "Details"))) = false := by
  refine ⟨by decide, by decide⟩

/-- C5 (amended): on every successful merge each fragment paragraph is
inserted as the sole child of a fresh paragraph whose direct run list is
empty, so the copied runs — text and bold/italic/underline exactly as in
the source — survive unchanged inside the nested copy; the formatting pass
runs unconditionally but visits only the direct runs of the inserted
paragraph (there are none) and never changes any run's text. -/
theorem claimC5 :
    (∀ (st : MergerState) (frag : List Element) (t : String) (ns : Option String),
        (mergeContent st (some frag) t ns).2 = none →
        ∀ p : Para, Element.para p ∈ frag →
          ∃ q : Para, Element.para q ∈ (mergeContent st (some frag) t ns).1.doc
            ∧ q.runs = [] ∧ q.nested = [p])
    ∧ (∀ p : Para, (applyFormatting p).runs.map Run.text = p.runs.map Run.text) := by
  constructor
  · intro st frag t ns h p hp
    obtain ⟨a, hfind⟩ := mergeContent_ok_find st frag t ns h
    exact ⟨wrapPara p,
      mergeContent_ok_mem st frag t ns a hfind _ (Or.inl (mem_fragWrapped_of_mem frag p hp)),
      rfl, rfl⟩
  · intro p
    cases p with
    | mk rs ns s =>
      show (rs.map _).map Run.text = rs.map Run.text
      induction rs with
      | nil => rfl
      | cons r rs ih => simp [ih]

/-- C5 (witness): merging a one-paragraph fragment into a one-paragraph
base at anchor A succeeds and the output contains a paragraph with no
direct runs whose sole nested child is the source paragraph, runs intact. -/
theorem claimC5_witness :
    ((mergeContent exWSt (some [Element.para exWPara]) "A" none).2 = none)
    ∧ (∃ q : Para,
        Element.para q ∈ (mergeContent exWSt (some [Element.para exWPara]) "A" none).1.doc
          ∧ q.runs = [] ∧ q.nested = [exWPara]) :=
  ⟨by decide,
    claimC5.1 exWSt [Element.para exWPara] "A" none (by decide) exWPara
      (List.mem_singleton.mpr rfl)⟩

/-- C5 (counterexample): the formatting pass itself is not
flag-preserving: applied to a paragraph owning one direct run whose text
contains the word bold and whose bold property is unset (none), it forces
bold to true — refuting that normalization changes only font and size and
never the bold/italic/underline flags.  It is also applied unconditionally
by _process_element, not as an explicit opt-in. -/
theorem claimC5_cex :
    exC5Para.runs.map Run.bold = [none]
    ∧ (applyFormatting exC5Para).runs.map Run.bold = [some true] := by
  refine ⟨by decide, by decide⟩

/-- C1 (amended): merge_content raises only before any mutation — an
unreadable source or a missing anchor leaves the merger state exactly equal
to its pre-call state — and on success every fragment paragraph is present
(as a wrapped copy) and every fragment table is present (rebuilt with one
column) in the merged body; no renumbering of existing headings occurs. -/
theorem claimC1 (st : MergerState) (src : Option (List Element)) (t : String)
    (ns : Option String) :
    (((mergeContent st src t ns).2).isSome → (mergeContent st src t ns).1 = st)
    ∧ (∀ frag, src = some frag → (mergeContent st src t ns).2 = none →
        (∀ p : Para, Element.para p ∈ frag →
          Element.para (wrapPara p) ∈ (mergeContent st src t ns).1.doc)
        ∧ (∀ tb : List TRow, Element.table tb ∈ frag →
          rebuildTable tb ∈ (mergeContent st src t ns).1.doc)) := by
  refine ⟨mergeContent_err_unchanged st src t ns, ?_⟩
  rintro frag rfl h
  obtain ⟨a, hfind⟩ := mergeContent_ok_find st frag t ns h
  exact ⟨fun p hp => mergeContent_ok_mem st frag t ns a hfind _
            (Or.inl (mem_fragWrapped_of_mem frag p hp)),
         fun tb htb => mergeContent_ok_mem st frag t ns a hfind _
            (Or.inr (mem_fragTables_of_mem frag tb htb))⟩

/-- C1 (witness): an unreadable source leaves the state untouched, and a
successful merge of a one-paragraph fragment and of a one-table fragment
places the wrapped paragraph and the rebuilt table in the body. -/
theorem claimC1_witness :
    ((mergeContent exWSt none "A" none).1 = exWSt)
    ∧ Element.para (wrapPara exWPara) ∈
        (mergeContent exWSt (some [Element.para exWPara]) "A" none).1.doc
    ∧ rebuildTable exC6Table2 ∈
        (mergeContent exWSt (some [Element.table exC6Table2]) "A" none).1.doc :=
  ⟨(claimC1 exWSt none "A" none).1 (by decide),
    ((claimC1 exWSt (some [Element.para exWPara]) "A" none).2 _ rfl (by decide)).1
      exWPara (List.mem_singleton.mpr rfl),
    ((claimC1 exWSt (some [Element.table exC6Table2]) "A" none).2 _ rfl (by decide)).2
      exC6Table2 (List.mem_singleton.mpr rfl)⟩

/-- C1 (counterexample): a successful merge without numbering
recomputation: the base with stored heading numbers 1 and 1.3 keeps exactly
those numbers after a successful merge at anchor 1.3, and the resulting
number sequence is not contiguous under the spec's re-derivation rule —
refuting that every successful call leaves the numbering recomputed. -/
theorem claimC1_cex :
    (mergeContent (mkMerger exC1Base) (some exC1Frag) "1.3" none).2 = none
    ∧ docHeadingNumbers
        (mergeContent (mkMerger exC1Base) (some exC1Frag) "1.3" none).1.doc = [[1], [1, 3]]
    ∧ Spec.numberingContiguous [[1], [1, 3]] = false := by
  refine ⟨by decide, by decide, by decide⟩

end OfferDoc

namespace OfferDoc

/-- C6 (amended): for every fragment table block of a successful merge, the
rebuilt table is present in the merged body; it has exactly as many rows as
the source table, but every row has exactly one cell (add_table is called
with one column and every source cell of a row is poured into cells[0]),
and every paragraph of a rebuilt cell has empty direct text (the fresh
empty paragraph, and wrapped copies whose content is nested), so the
python-docx cell text of the destination is blank rather than the source
cell text.  The rebuilt table is appended at the body end, not at the
anchor. -/
theorem claimC6 (st : MergerState) (frag : List Element) (t : String) (ns : Option String)
    (tb : List TRow) (h : (mergeContent st (some frag) t ns).2 = none)
    (htb : Element.table tb ∈ frag) :
    rebuildTable tb ∈ (mergeContent st (some frag) t ns).1.doc
    ∧ (tb.map (fun row => [rebuildCell row])).length = tb.length
    ∧ (∀ r ∈ tb.map (fun row => [rebuildCell row]), r.length = 1)
    ∧ ∀ row ∈ tb, ∀ p ∈ rebuildCell row, paraText p = "" := by
  obtain ⟨a, hfind⟩ := mergeContent_ok_find st frag t ns h
  refine ⟨mergeContent_ok_mem st frag t ns a hfind _
      (Or.inr (mem_fragTables_of_mem frag tb htb)), by simp, ?_, ?_⟩
  · intro r hr
    obtain ⟨row, -, rfl⟩ := List.mem_map.mp hr
    rfl
  · intro row hrow p hp
    rcases List.mem_cons.mp hp with rfl | hp
    · rfl
    · obtain ⟨l, hl, hpl⟩ := List.mem_flatten.mp hp
      obtain ⟨c, -, rfl⟩ := List.mem_map.mp hl
      obtain ⟨q, -, rfl⟩ := List.mem_map.mp hpl
      simp

/-- C6 (witness): merging a fragment holding the two-row one-column table
succeeds; the rebuilt table is in the body with two rows of one cell each
and blank direct cell text. -/
theorem claimC6_witness :
    ((mergeContent exWSt (some [Element.table exC6Table2]) "A" none).2 = none)
    ∧ (rebuildTable exC6Table2 ∈
          (mergeContent exWSt (some [Element.table exC6Table2]) "A" none).1.doc
       ∧ (exC6Table2.map (fun row => [rebuildCell row])).length = exC6Table2.length
       ∧ (∀ r ∈ exC6Table2.map (fun row => [rebuildCell row]), r.length = 1)
       ∧ ∀ row ∈ exC6Table2, ∀ p ∈ rebuildCell row, paraText p = "") :=
  ⟨by decide,
    claimC6 exWSt [Element.table exC6Table2] "A" none exC6Table2 (by decide)
      (List.mem_singleton.mpr rfl)⟩

/-- C6 (counterexample): merging a fragment with a one-row two-column table
produces a table whose single row has one cell, not two — the destination
column count is not that of the source; and for the claim's own two-row
one-column example the destination cell texts are blank, not the source
cell texts R1 and R2. -/
theorem claimC6_cex :
    ((tablesOf (mergeContent (mkMerger exC6Base)
          (some [Element.table exC6Table]) "A" none).1.doc).map
        (fun rows => rows.map List.length) = [[1]])
    ∧ exC6Table.map List.length = [2]
    ∧ ((tablesOf (mergeContent (mkMerger exC6Base)
          (some [Element.table exC6Table2]) "A" none).1.doc).map
        (fun rows => rows.map (fun r => r.map (fun c => c.map paraText)))
        = [[[["", ""]], [["", ""]]]])
    ∧ exC6Table2.map (fun r => r.map (fun c => c.map paraText)) = [[["R1"]], [["R2"]]] := by
  refine ⟨by decide, by decide, by decide, by decide⟩

/-- C7 (amended): on a successful merge without a new subsection, the
fragment's paragraph blocks appear wrapped, in their original relative
order, immediately BEFORE the anchor block (each paragraph is inserted at
the anchor's current index, which pushes the anchor right), while the
fragment's tables are appended at the end of the body; the anchor paragraph
itself only accumulates the fragment's sectPr copies. -/
theorem claimC7 (st : MergerState) (frag : List Element) (t : String) (a : Nat)
    (hfind : findSection st.doc t = some a) :
    ∃ X Y p0, st.doc = X ++ Element.para p0 :: Y ∧ X.length = a
      ∧ pyStrip (paraText p0) = t
      ∧ mergeContent st (some frag) t none =
          (⟨X ++ fragWrapped frag ++
              Element.para (addSect p0 (countSect frag)) :: (Y ++ fragTables frag),
            st.sectionMap⟩, none) := by
  obtain ⟨X, y, Y, h1, h2, h3, h4⟩ := findIdxAux_some_spec _ _ _ hfind
  obtain ⟨p0, rfl⟩ : ∃ p0, y = Element.para p0 := by
    cases y with
    | para p => exact ⟨p, rfl⟩
    | table tb2 => simp [sectionMatch] at h3
    | sectPr => simp [sectionMatch] at h3
  subst h2
  exact ⟨X, Y, p0, h1, rfl, by simpa [sectionMatch] using h3,
    mergeContent_ok_none_sub st frag t X Y p0 h1 hfind⟩

/-- C7 (witness): merging the two-paragraph fragment at anchor A of the
two-paragraph base realizes the decomposition with X empty: both wrapped
fragment paragraphs land directly before the anchor, in order. -/
theorem claimC7_witness :
    (findSection (mkMerger exC7Base).doc "A" = some 0)
    ∧ ∃ X Y p0, (mkMerger exC7Base).doc = X ++ Element.para p0 :: Y ∧ X.length = 0
        ∧ pyStrip (paraText p0) = "A"
        ∧ mergeContent (mkMerger exC7Base) (some exC7Frag) "A" none =
            (⟨X ++ fragWrapped exC7Frag ++
                Element.para (addSect p0 (countSect exC7Frag)) :: (Y ++ fragTables exC7Frag),
              (mkMerger exC7Base).sectionMap⟩, none) :=
  ⟨by decide, claimC7 (mkMerger exC7Base) exC7Frag "A" 0 (by decide)⟩

/-- C7 (counterexample): merging a one-paragraph fragment at anchor A of
the base [A, B] yields body texts ["", "A", "B"]: the inserted block (the
paragraph with one nested child, empty direct text) sits at index 0, BEFORE
the anchor A at index 1 — not immediately after the anchor as claimed. -/
theorem claimC7_cex :
    docTexts (mergeContent (mkMerger exC7Base)
        (some [Element.para exWPara]) "A" none).1.doc = ["", "A", "B"]
    ∧ (docParas (mergeContent (mkMerger exC7Base)
        (some [Element.para exWPara]) "A" none).1.doc).map
        (fun p => p.nested.length) = [1, 0, 0] := by
  refine ⟨by decide, by decide⟩

end OfferDoc

namespace OfferDoc

theorem fragWrapped_map_para (ps : List Para) :
    fragWrapped (ps.map Element.para) = ps.map (fun p => Element.para (wrapPara p)) := by
  induction ps with
  | nil => rfl
  | cons p ps ih => simp [ih]

theorem fragTables_map_para (ps : List Para) : fragTables (ps.map Element.para) = [] := by
  induction ps with
  | nil => rfl
  | cons p ps ih => simpa using ih

theorem countSect_map_para (ps : List Para) : countSect (ps.map Element.para) = 0 := by
  induction ps with
  | nil => rfl
  | cons p ps ih => simpa using ih

@[simp] theorem docParas_nil : docParas [] = [] := rfl

@[simp] theorem docParas_para (p : Para) (rest : List Element) :
    docParas (Element.para p :: rest) = p :: docParas rest := rfl

@[simp] theorem docParas_table (t : List TRow) (rest : List Element) :
    docParas (Element.table t :: rest) = docParas rest := rfl

@[simp] theorem docParas_sectPr (rest : List Element) :
    docParas (Element.sectPr :: rest) = docParas rest := rfl

theorem docParas_append (l m : List Element) :
    docParas (l ++ m) = docParas l ++ docParas m := by
  induction l with
  | nil => rfl
  | cons e l ih => cases e <;> simp [ih]

theorem docParas_map_wrap (ps : List Para) :
    docParas (ps.map (fun p => Element.para (wrapPara p))) = ps.map wrapPara := by
  induction ps with
  | nil => rfl
  | cons p ps ih => simp [ih]

theorem map_paraText_wrap (ps : List Para) :
    (ps.map wrapPara).map paraText = ps.map (fun _ => "") := by
  induction ps with
  | nil => rfl
  | cons p ps ih => simp [ih]

@[simp] theorem paraText_textPara (s : String) : paraText (textPara s) = s := rfl

theorem findSection_append_all_false (t : String) (l m : List Element)
    (h : ∀ x ∈ l, sectionMatch t x = false) :
    findSection (l ++ m) t = (findSection m t).map (· + l.length) :=
  findIdxAux_append_all_false _ l m h

/-- C2 (amended): no renumbering pass exists; a successful merge never
rewrites any existing heading number, and the optional new subsection is
numbered by incrementing the last component of the greatest section-map
key, not by continuing the anchor's numbering.  Concretely, for a base with
heading numbers 1, 1.1, 1.2 and any fragment whatsoever of paragraph
blocks, merging at anchor 1.2 with new subsection heading Additional
Information succeeds and produces exactly the old headings (unchanged),
the wrapped fragment paragraphs (blank direct text) before the anchor, and
one new heading reading 2 Additional Information after it — the final
numbers are 1, 1.1, 1.2, 2 and never 1.3, regardless of fragment size. -/
theorem claimC2 (ps : List Para) :
    mergeContent (mkMerger exC2Base) (some (ps.map Element.para)) "1.2"
        (some "Additional Information") =
      (⟨([Element.para (textPara "1"), Element.para (textPara "1.1")] ++
          ps.map (fun p => Element.para (wrapPara p)) ++
          [Element.para (textPara "1.2")]) ++
          [Element.para (textPara "2 Additional Information")],
        [("1", 2)]⟩, none)
    ∧ docTexts (mergeContent (mkMerger exC2Base) (some (ps.map Element.para)) "1.2"
        (some "Additional Information")).1.doc =
      ["1", "1.1"] ++ ps.map (fun _ => "") ++ ["1.2", "2 Additional Information"] := by
  have hdoc : (mkMerger exC2Base).doc =
      [Element.para (textPara "1"), Element.para (textPara "1.1")] ++
        Element.para (textPara "1.2") :: [] := rfl
  have hfind : findSection (mkMerger exC2Base).doc "1.2" =
      some ([Element.para (textPara "1"), Element.para (textPara "1.1")] : List Element).length := by
    decide
  obtain ⟨i, hi, heq⟩ := mergeContent_ok_some_sub (mkMerger exC2Base) (ps.map Element.para)
    "1.2" "Additional Information" _ _ _ hdoc hfind
  rw [fragWrapped_map_para, fragTables_map_para, countSect_map_para, addSect_zero] at hi heq
  simp only [List.append_nil, List.nil_append] at hi heq
  have hfalse : ∀ x ∈ ([Element.para (textPara "1"), Element.para (textPara "1.1")] ++
      ps.map (fun p => Element.para (wrapPara p))), sectionMatch "1.2" x = false := by
    intro x hx
    rcases List.mem_append.mp hx with hx | hx
    · rcases List.mem_cons.mp hx with rfl | hx
      · decide
      · rcases List.mem_cons.mp hx with rfl | hx
        · decide
        · cases hx
    · obtain ⟨p, -, rfl⟩ := List.mem_map.mp hx
      show (pyStrip (paraText (wrapPara p)) == "1.2") = false
      rw [paraText_wrapPara]
      decide
  rw [List.append_assoc, List.singleton_append, findSection_append_all_false _ _ _ hfalse] at hi
  have hstep : findSection
      [Element.para (textPara "1.2"),
        Element.para (textPara (newSectionNumber (mkMerger exC2Base).sectionMap ++ " " ++
          "Additional Information"))] "1.2" = some 0 := by decide
  rw [hstep] at hi
  have hilen : i = 2 + ps.length := by
    have := (Option.some.injEq _ _).mp hi
    simp at this
    omega
  subst hilen
  have hlen : 2 + ps.length + 1 =
      ([Element.para (textPara "1"), Element.para (textPara "1.1")] ++
        ps.map (fun p => Element.para (wrapPara p)) ++
        [Element.para (textPara "1.2")] : List Element).length := by
    simp
    omega
  rw [hlen, insertAt_self_length] at heq
  have hnum : newSectionNumber (mkMerger exC2Base).sectionMap ++ " " ++ "Additional Information" =
      "2 Additional Information" := by decide
  have hmap : (mkMerger exC2Base).sectionMap = [("1", 2)] := by decide
  rw [hnum, hmap] at heq
  refine ⟨heq, ?_⟩
  rw [heq]
  show docTexts _ = _
  rw [docTexts, docParas_append, docParas_append, docParas_append]
  simp only [docParas_map_wrap, docParas_para, docParas_nil]
  rw [List.map_append, List.map_append, List.map_append, map_paraText_wrap]
  simp [List.append_assoc]

end OfferDoc

namespace OfferDoc

/-- C2 (counterexample): the claim's own scenario — base headings numbered
1, 1.1, 1.2, a one-heading fragment, new subsection heading Additional
Information at anchor 1.2 — succeeds but ends with paragraph texts 1, 1.1,
blank, 1.2, 2 Additional Information: the new heading is numbered 2, no
paragraph text begins with 1.3, and no renumbering pass ran. -/
theorem claimC2_cex :
    (mergeContent (mkMerger exC2Base) (some [Element.para exC2Frag]) "1.2"
        (some "Additional Information")).2 = none
    ∧ docTexts (mergeContent (mkMerger exC2Base) (some [Element.para exC2Frag]) "1.2"
        (some "Additional Information")).1.doc
        = ["1", "1.1", "", "1.2", "2 Additional Information"]
    ∧ (docTexts (mergeContent (mkMerger exC2Base) (some [Element.para exC2Frag]) "1.2"
        (some "Additional Information")).1.doc).all
        (fun s => !Py.pyStartsWith s "1.3") = true := by
  refine ⟨by decide, by decide, by decide⟩

end OfferDoc
